import Mathlib

/-!
# A shallow embedding of the bUnitTests engine (bUnitTests.h, v1.3.0)

This file embeds the unit-test registration / execution engine of the
repository's single-header framework and proves the specification claims
about it.  The authoritative source is the v1.3.0 header (the file whose
implementation contains groups, output capture to a log file, and the
`main` entry point).

Modelling decisions (all traced to the source):

* `std::cout` plus the log file are modelled by `OutSt`: a current
  redirection target (`target`, the `rdbuf` of `std::cout`), the chunks of
  text written so far to the console (the primary channel) and to the log
  file, and a counter of `set_rdbuf` calls (the capture facility).
* A test function (`bTestFnType`, a zero-argument function) is modelled by
  the chunks it writes to `std::cout` before finishing and its outcome:
  returning normally, throwing an exception derived from `std::exception`
  carrying a `what()` string, or throwing something not derived from
  `std::exception` (which the runner's `catch` clause does not match).
* The registry (`std::unordered_map` of group name to `std::unordered_map`
  of test name to function pointer) is modelled by association lists with
  `insert_or_assign` semantics; sizes and lookups are the observables the
  claims use.
* Exception propagation out of `run_tests` (an uncaught exception, which
  terminates the program before any summary is printed) is modelled with
  `Except`, the error value holding the output state at the throw point.
-/

set_option autoImplicit false

namespace BUnitTests

/-- The two output sinks of the program: the console (the primary status
channel, `std::cout`'s original buffer) and the log file (`g_testsLog`). -/
inductive Sink where
  | console
  | log
  deriving DecidableEq, Repr

/-- The observable output state: the current `rdbuf` target of `std::cout`,
everything written so far to each sink, and how many times `set_rdbuf`
(the capture facility) has been invoked. -/
structure OutSt where
  target : Sink
  consoleOut : List String
  logOut : List String
  rdbufSets : Nat
  deriving DecidableEq, Repr

/-- Writing a chunk through `std::cout`: it lands in whichever sink
`std::cout`'s `rdbuf` currently points at. -/
def coutWrite (s : String) (st : OutSt) : OutSt :=
  match st.target with
  | Sink.console => { st with consoleOut := st.consoleOut ++ [s] }
  | Sink.log => { st with logOut := st.logOut ++ [s] }

/-- `std::cout.set_rdbuf(...)`: changes the redirection target and counts
as one invocation of the capture facility. -/
def setRdbuf (t : Sink) (st : OutSt) : OutSt :=
  { st with target := t, rdbufSets := st.rdbufSets + 1 }

/-- Outcome of invoking one test action. -/
inductive TestOutcome where
  | ok
  | stdExc (what : String)
  | foreign
  deriving DecidableEq, Repr

/-- Model of a `bTestFnType` value: the chunks the action writes to
`std::cout` while running, and how the invocation ends. -/
structure bTestFn where
  prints : List String
  outcome : TestOutcome
  deriving DecidableEq, Repr

/-- One group's `std::unordered_map<std::string, bTestFnType>`. -/
abbrev GroupMap := List (String × bTestFn)

/-- The registry returned by `get_tests()`:
`std::unordered_map<std::string, std::unordered_map<std::string, bTestFnType>>`. -/
abbrev Tests := List (String × GroupMap)

/-- Association-list lookup, the model of `unordered_map::at` /
`unordered_map::contains` (present iff `assocGet` is `some`). -/
def assocGet {α : Type} (k : String) : List (String × α) → Option α
  | [] => none
  | (k', v) :: rest => if k' = k then some v else assocGet k rest

/-- `unordered_map::insert_or_assign`: replace the mapped value if the key
is present, otherwise add a new entry. -/
def insert_or_assign {α : Type} (k : String) (v : α) : List (String × α) → List (String × α)
  | [] => [(k, v)]
  | (k', v') :: rest =>
    if k' = k then (k, v) :: rest else (k', v') :: insert_or_assign k v rest

/-- Updating the entry mapped to a present key in place (the effect of
mutating `map.at(k)`). -/
def mapAt {α : Type} (k : String) (f : α → α) : List (String × α) → List (String × α)
  | [] => []
  | (k', v') :: rest =>
    if k' = k then (k', f v') :: rest else (k', v') :: mapAt k f rest

/-- `ben::tests::UnitTest::UnitTest(name, func, group)`: if the group does
not exist, insert an empty map for it, then `insert_or_assign` the test
function under its name inside that group's map. -/
def UnitTest.ctor (name : String) (func : bTestFn) (group : String) (tests : Tests) : Tests :=
  let tests' := if (assocGet group tests).isSome then tests
                else insert_or_assign group [] tests
  mapAt group (insert_or_assign name func) tests'

/-- Lookup of the function registered under `(group, name)`. -/
def lookupTest (group name : String) (tests : Tests) : Option bTestFn :=
  match assocGet group tests with
  | none => none
  | some m => assocGet name m

/-- The registry's entry count for one group (`0` when the group is absent). -/
def groupEntryCount (group : String) (tests : Tests) : Nat :=
  match assocGet group tests with
  | none => 0
  | some m => m.length

/-- `bFILE_PATH_SEPARATOR` on the non-Windows branch. -/
def bFILE_PATH_SEPARATOR : Char := '/'

/-- `std::string::find_last_of(c)`: index of the last occurrence of `c`,
`none` standing for `npos`. -/
def findLastOf (c : Char) : List Char → Option Nat
  | [] => none
  | a :: rest =>
    match findLastOf c rest with
    | some i => some (i + 1)
    | none => if a = c then some 0 else none

/-- The error string built by `bTEST_ASSERT` on a false condition:
`__FILE__ ++ ":" ++ std::to_string(__LINE__)`, then
`substr(lastSeparator == npos ? 0 : lastSeparator)` — note the substring
starts AT the last separator, keeping it. -/
def bTEST_ASSERT_errorString (file : String) (line : Nat) : String :=
  let errorString := file ++ ":" ++ toString line
  match findLastOf bFILE_PATH_SEPARATOR errorString.data with
  | none => errorString
  | some i => String.mk (errorString.data.drop i)

/-- `bTEST_ASSERT(expr)`: `none` when the condition holds (no throw),
`some w` when it throws `std::exception` with `what() = w`. -/
def bTEST_ASSERT (expr : Bool) (file : String) (line : Nat) : Option String :=
  if expr then none else some (bTEST_ASSERT_errorString file line)

/-- The 80-character dashed line printed by `print_line_separator()`. -/
def lineSeparator : String :=
  "--------------------------------------------------------------------------------\n"

/-- The per-test announcement `"\t[" << (idx + 1) << "] : '" << name << "' "`. -/
def announceLine (idx : Nat) (name : String) : String :=
  "\t[" ++ toString (idx + 1) ++ "] : \x27" ++ name ++ "\x27 "

/-- The console status chunk the runner prints after restoring `std::cout`:
`passed.` on success, `failed at '<what>'.` on a caught exception. -/
def resultLine : TestOutcome → String
  | TestOutcome.ok => "passed.\n"
  | TestOutcome.stdExc w => "failed at \x27" ++ w ++ "\x27.\n"
  | TestOutcome.foreign => ""

/-- One iteration of the inner loop of `run_tests` (log-enabled build):
announce the test, redirect `std::cout` to the log, print the log banner,
invoke the test, then classify: on a normal return print the pass lines,
restore the buffer and bump the counter; on a `std::exception` print the
failure lines and restore the buffer; any other exception escapes (the
`catch` does not match) with the buffer still redirected. -/
def runTest (coutBuffer : Sink) (idx : Nat) (name : String) (test : bTestFn)
    (succ : Nat) (st : OutSt) : Except OutSt (Nat × OutSt) :=
  let st1 := coutWrite (announceLine idx name) st
  let st2 := setRdbuf Sink.log st1
  let st3 := coutWrite lineSeparator st2
  let st4 := coutWrite ("Test \x27" ++ name ++ "\x27 log:\n\n") st3
  let st5 := test.prints.foldl (fun s p => coutWrite p s) st4
  match test.outcome with
  | TestOutcome.ok =>
    let st6 := coutWrite "\npassed.\n" st5
    let st7 := coutWrite lineSeparator st6
    let st8 := setRdbuf coutBuffer st7
    let st9 := coutWrite "passed.\n" st8
    Except.ok (succ + 1, st9)
  | TestOutcome.stdExc w =>
    let st6 := coutWrite ("\nfailed at \x27" ++ w ++ "\x27.\n") st5
    let st7 := coutWrite lineSeparator st6
    let st8 := setRdbuf coutBuffer st7
    let st9 := coutWrite ("failed at \x27" ++ w ++ "\x27.\n") st8
    Except.ok (succ, st9)
  | TestOutcome.foreign => Except.error st5

/-- The inner loop of `run_tests` over one group's tests, threading the
per-run index, the success counter and the output state. -/
def runTestList (coutBuffer : Sink) :
    List (String × bTestFn) → Nat → Nat → OutSt → Except OutSt (Nat × Nat × OutSt)
  | [], idx, succ, st => Except.ok (idx, succ, st)
  | (name, test) :: rest, idx, succ, st =>
    match runTest coutBuffer idx name test succ st with
    | Except.error e => Except.error e
    | Except.ok (succ', st') => runTestList coutBuffer rest (idx + 1) succ' st'

/-- The outer loop of `run_tests` over the groups: announce the group on
the current channel, copy the announcement into the log (redirect, write,
restore), then run the group's tests. -/
def runGroupList (coutBuffer : Sink) :
    Tests → Nat → Nat → OutSt → Except OutSt (Nat × Nat × OutSt)
  | [], idx, succ, st => Except.ok (idx, succ, st)
  | (group, tests) :: rest, idx, succ, st =>
    let st1 := coutWrite ("Group: \x27" ++ group ++ "\x27\n") st
    let st2 := setRdbuf Sink.log st1
    let st3 := coutWrite ("Group: \x27" ++ group ++ "\x27\n") st2
    let st4 := setRdbuf coutBuffer st3
    match runTestList coutBuffer tests idx succ st4 with
    | Except.error e => Except.error e
    | Except.ok (idx', succ', st') => runGroupList coutBuffer rest idx' succ' st'

/-- `run_tests()`: save the current `std::cout` buffer, announce the run,
then walk every group.  The result is the final success counter and output
state, or the output state at an escaped (uncaught) exception. -/
def run_tests (tests : Tests) (succ : Nat) (st : OutSt) : Except OutSt (Nat × OutSt) :=
  let coutBuffer := st.target
  let st1 := coutWrite "RUNNING TESTS...\n" st
  match runGroupList coutBuffer tests 0 succ st1 with
  | Except.error e => Except.error e
  | Except.ok (_, succ', st') => Except.ok (succ', st')

/-- `get_number_of_tests()`: the sum of the per-group entry counts. -/
def get_number_of_tests (tests : Tests) : Nat :=
  tests.foldl (fun acc g => acc + g.2.length) 0

/-- The post-run summary line `"\tPassed {passed} out of {total} tests.\n"`. -/
def summaryLine (succ total : Nat) : String :=
  "\tPassed " ++ toString succ ++ " out of " ++ toString total ++ " tests.\n"

/-- `print_info()`: separator, the two INFO lines (test count and group
count), separator — all through `std::cout`. -/
def print_info (tests : Tests) (st : OutSt) : OutSt :=
  let n := get_number_of_tests tests
  let g := tests.length
  let st1 := coutWrite lineSeparator st
  let st2 := coutWrite
    "INFO:\tIf all tests pass (or no tests fail), the program will return success.\n\t\tOtherwise, it will return failure.\n" st1
  let st3 := coutWrite
    ("INFO:\tFound " ++ toString n ++ " test" ++ (if n = 1 then "" else "s") ++
      " in " ++ toString g ++ " group" ++ (if g = 1 then ".\n" else "s.\n")) st2
  coutWrite lineSeparator st3

/-- `print_summary()`: the summary block on the current channel, then the
same block copied into the log under a save/redirect/restore of the
`std::cout` buffer. -/
def print_summary (tests : Tests) (succ : Nat) (st : OutSt) : OutSt :=
  let total := get_number_of_tests tests
  let st1 := coutWrite lineSeparator st
  let st2 := coutWrite "SUMMARY:\n" st1
  let st3 := coutWrite (summaryLine succ total) st2
  let st4 := coutWrite lineSeparator st3
  let coutBuffer := st4.target
  let st5 := setRdbuf Sink.log st4
  let st6 := coutWrite lineSeparator st5
  let st7 := coutWrite "SUMMARY:\n" st6
  let st8 := coutWrite (summaryLine succ total) st7
  let st9 := coutWrite lineSeparator st8
  setRdbuf coutBuffer st9

/-- `enum struct ReturnValue : int { pass = 0, fail = -1 }`. -/
inductive ReturnValue where
  | pass
  | fail
  deriving DecidableEq, Repr

/-- `static_cast<int>` on `ReturnValue`. -/
def ReturnValue.toInt : ReturnValue → Int
  | ReturnValue.pass => 0
  | ReturnValue.fail => -1

/-- How an execution of the program ends: a normal `return code` from
`main` (with the final success counter and output state), or termination
by an exception that escaped `run_tests` (no exit code, no summary). -/
inductive ProgResult where
  | exits (code : Int) (successes : Nat) (st : OutSt)
  | terminated (st : OutSt)
  deriving DecidableEq, Repr

/-- Output state at program start: `std::cout` points at the console,
nothing written, the capture facility never invoked. -/
def initialOutSt : OutSt :=
  { target := Sink.console, consoleOut := [], logOut := [], rdbufSets := 0 }

/-- `main()`: print the info block; if the registry has no groups return
the pass code at once (the counter still `0`); otherwise run the tests,
print the summary and return pass iff every test passed.  An exception
escaping `run_tests` terminates the program with no summary. -/
def main (tests : Tests) : ProgResult :=
  let st1 := print_info tests initialOutSt
  if tests.length = 0 then
    ProgResult.exits (ReturnValue.toInt ReturnValue.pass) 0 st1
  else
    match run_tests tests 0 st1 with
    | Except.error e => ProgResult.terminated e
    | Except.ok (succ, st2) =>
      let st3 := print_summary tests succ st2
      ProgResult.exits
        (ReturnValue.toInt
          (if succ = get_number_of_tests tests then ReturnValue.pass else ReturnValue.fail))
        succ st3

/-! ## Basic lemmas about the output state -/

theorem coutWrite_target (s : String) (st : OutSt) : (coutWrite s st).target = st.target := by
  cases h : st.target <;> simp [coutWrite, h]

theorem coutWrite_rdbufSets (s : String) (st : OutSt) :
    (coutWrite s st).rdbufSets = st.rdbufSets := by
  cases h : st.target <;> simp [coutWrite, h]

theorem coutWrite_of_console (s : String) (st : OutSt) (h : st.target = Sink.console) :
    coutWrite s st = { st with consoleOut := st.consoleOut ++ [s] } := by
  simp [coutWrite, h]

theorem coutWrite_of_log (s : String) (st : OutSt) (h : st.target = Sink.log) :
    coutWrite s st = { st with logOut := st.logOut ++ [s] } := by
  simp [coutWrite, h]

theorem coutWrite_console_mk (s : String) (co lo : List String) (rs : Nat) :
    coutWrite s (OutSt.mk Sink.console co lo rs) = OutSt.mk Sink.console (co ++ [s]) lo rs := rfl

theorem coutWrite_log_mk (s : String) (co lo : List String) (rs : Nat) :
    coutWrite s (OutSt.mk Sink.log co lo rs) = OutSt.mk Sink.log co (lo ++ [s]) rs := rfl

theorem setRdbuf_mk (t tg : Sink) (co lo : List String) (rs : Nat) :
    setRdbuf t (OutSt.mk tg co lo rs) = OutSt.mk t co lo (rs + 1) := rfl

/-- Writes performed while `std::cout` is redirected to the log all land in
the log: explicit evaluation of the fold over a test's prints. -/
theorem foldl_coutWrite_log (ps : List String) (co lo : List String) (rs : Nat) :
    ps.foldl (fun s p => coutWrite p s) (OutSt.mk Sink.log co lo rs) =
      OutSt.mk Sink.log co (lo ++ ps) rs := by
  induction ps generalizing lo with
  | nil => simp
  | cons p ps ih =>
    rw [List.foldl_cons, coutWrite_log_mk, ih]
    simp

/-! ## Evaluation lemmas for one test invocation (`runTest`) -/

/-- A passing test, invoked with `std::cout` on the console: the runner
announces it and prints `passed.` on the console, the log receives the
banner, the test's own prints and the pass lines, the counter is bumped,
and `std::cout` ends up back on the saved buffer. -/
theorem runTest_console_ok (idx : Nat) (name : String) (prints : List String)
    (succ : Nat) (co lo : List String) (rs : Nat) :
    runTest Sink.console idx name (bTestFn.mk prints TestOutcome.ok) succ
        (OutSt.mk Sink.console co lo rs) =
      Except.ok (succ + 1,
        OutSt.mk Sink.console
          (co ++ [announceLine idx name, "passed.\n"])
          (lo ++ [lineSeparator, "Test \x27" ++ name ++ "\x27 log:\n\n"] ++ prints ++
            ["\npassed.\n", lineSeparator])
          (rs + 2)) := by
  simp only [runTest, coutWrite_console_mk, coutWrite_log_mk, setRdbuf_mk,
    foldl_coutWrite_log, List.append_assoc]
  simp

/-- A test that throws a `std::exception` with `what() = w`, invoked with
`std::cout` on the console: the exception is caught at the per-test
boundary, the failure line is printed to the log and (after restoring the
buffer) to the console, and the counter is left unchanged. -/
theorem runTest_console_stdExc (idx : Nat) (name w : String) (prints : List String)
    (succ : Nat) (co lo : List String) (rs : Nat) :
    runTest Sink.console idx name (bTestFn.mk prints (TestOutcome.stdExc w)) succ
        (OutSt.mk Sink.console co lo rs) =
      Except.ok (succ,
        OutSt.mk Sink.console
          (co ++ [announceLine idx name, "failed at \x27" ++ w ++ "\x27.\n"])
          (lo ++ [lineSeparator, "Test \x27" ++ name ++ "\x27 log:\n\n"] ++ prints ++
            ["\nfailed at \x27" ++ w ++ "\x27.\n", lineSeparator])
          (rs + 2)) := by
  simp only [runTest, coutWrite_console_mk, coutWrite_log_mk, setRdbuf_mk,
    foldl_coutWrite_log, List.append_assoc]
  simp

/-- A test that throws something not derived from `std::exception`: the
`catch` clause does not match, the invocation escapes with `std::cout`
still redirected to the log, the console having received only the
announcement. -/
theorem runTest_console_foreign (idx : Nat) (name : String) (prints : List String)
    (succ : Nat) (co lo : List String) (rs : Nat) :
    runTest Sink.console idx name (bTestFn.mk prints TestOutcome.foreign) succ
        (OutSt.mk Sink.console co lo rs) =
      Except.error
        (OutSt.mk Sink.log
          (co ++ [announceLine idx name])
          (lo ++ [lineSeparator, "Test \x27" ++ name ++ "\x27 log:\n\n"] ++ prints)
          (rs + 1)) := by
  simp only [runTest, coutWrite_console_mk, coutWrite_log_mk, setRdbuf_mk,
    foldl_coutWrite_log, List.append_assoc]
  simp

/-- A test that throws an unrecognized (non-`std::exception`) condition is
never absorbed at the per-test boundary, whatever the output state. -/
theorem runTest_foreign_error (cb : Sink) (idx : Nat) (name : String) (t : bTestFn)
    (succ : Nat) (st : OutSt) (h : t.outcome = TestOutcome.foreign) :
    ∃ e, runTest cb idx name t succ st = Except.error e := by
  simp [runTest, h]

/-- Whenever one invocation completes (the exception, if any, was caught),
the counter grew by one exactly on success and is untouched otherwise. -/
theorem runTest_ok_succ (cb : Sink) (idx : Nat) (name : String) (t : bTestFn)
    (succ : Nat) (st : OutSt) (succ' : Nat) (st' : OutSt)
    (h : runTest cb idx name t succ st = Except.ok (succ', st')) :
    succ' = succ + (if t.outcome = TestOutcome.ok then 1 else 0) := by
  cases ht : t.outcome <;> simp [runTest, ht] at h <;> simp [ht, h.1.symm]

/-- Whenever one invocation completes, `std::cout` has been restored to
the saved buffer. -/
theorem runTest_ok_target (cb : Sink) (idx : Nat) (name : String) (t : bTestFn)
    (succ : Nat) (st : OutSt) (succ' : Nat) (st' : OutSt)
    (h : runTest cb idx name t succ st = Except.ok (succ', st')) :
    st'.target = cb := by
  cases ht : t.outcome <;> simp [runTest, ht] at h
  · rw [← h.2]
    simp [coutWrite_target, setRdbuf]
  · rw [← h.2]
    simp [coutWrite_target, setRdbuf]

/-! ## Lemmas about the runner loops -/

theorem runTestList_ok_target (cb : Sink) (l : List (String × bTestFn)) (idx succ : Nat)
    (st : OutSt) (idx' succ' : Nat) (st' : OutSt) (hst : st.target = cb)
    (h : runTestList cb l idx succ st = Except.ok (idx', succ', st')) : st'.target = cb := by
  induction l generalizing idx succ st with
  | nil =>
    simp only [runTestList, Except.ok.injEq, Prod.mk.injEq] at h
    rw [← h.2.2]
    exact hst
  | cons p l ih =>
    obtain ⟨name, t⟩ := p
    simp only [runTestList] at h
    cases hr : runTest cb idx name t succ st with
    | error e => rw [hr] at h; cases h
    | ok v =>
      obtain ⟨succ1, st1⟩ := v
      rw [hr] at h
      exact ih _ _ _ (runTest_ok_target _ _ _ _ _ _ _ _ hr) h

theorem runTestList_succ_le (cb : Sink) (l : List (String × bTestFn)) (idx succ : Nat)
    (st : OutSt) (idx' succ' : Nat) (st' : OutSt)
    (h : runTestList cb l idx succ st = Except.ok (idx', succ', st')) :
    succ' ≤ succ + l.length := by
  induction l generalizing idx succ st with
  | nil =>
    simp only [runTestList, Except.ok.injEq, Prod.mk.injEq] at h
    omega
  | cons p l ih =>
    obtain ⟨name, t⟩ := p
    simp only [runTestList] at h
    cases hr : runTest cb idx name t succ st with
    | error e => rw [hr] at h; cases h
    | ok v =>
      obtain ⟨succ1, st1⟩ := v
      rw [hr] at h
      have h1 : succ1 = succ + (if t.outcome = TestOutcome.ok then 1 else 0) :=
        runTest_ok_succ _ _ _ _ _ _ _ _ hr
      have h2 := ih _ _ _ h
      simp only [List.length_cons]
      split at h1 <;> omega

theorem runGroupList_ok_target (cb : Sink) (gs : Tests) (idx succ : Nat)
    (st : OutSt) (idx' succ' : Nat) (st' : OutSt) (hst : st.target = cb)
    (h : runGroupList cb gs idx succ st = Except.ok (idx', succ', st')) : st'.target = cb := by
  induction gs generalizing idx succ st with
  | nil =>
    simp only [runGroupList, Except.ok.injEq, Prod.mk.injEq] at h
    rw [← h.2.2]
    exact hst
  | cons p gs ih =>
    obtain ⟨group, l⟩ := p
    simp only [runGroupList] at h
    cases hr : runTestList cb l idx succ
        (setRdbuf cb (coutWrite ("Group: \x27" ++ group ++ "\x27\n")
          (setRdbuf Sink.log (coutWrite ("Group: \x27" ++ group ++ "\x27\n") st)))) with
    | error e => rw [hr] at h; cases h
    | ok v =>
      obtain ⟨idx1, succ1, st1⟩ := v
      rw [hr] at h
      have htg : st1.target = cb := runTestList_ok_target _ _ _ _ _ _ _ _ (by simp [setRdbuf]) hr
      exact ih _ _ _ htg h

theorem get_number_of_tests_foldl (tests : Tests) (n : Nat) :
    tests.foldl (fun acc g => acc + g.2.length) n = n + get_number_of_tests tests := by
  induction tests generalizing n with
  | nil => simp [get_number_of_tests]
  | cons g rest ih =>
    simp only [get_number_of_tests, List.foldl_cons] at ih ⊢
    rw [ih, ih (0 + g.2.length)]
    omega

theorem get_number_of_tests_cons (g : String × GroupMap) (rest : Tests) :
    get_number_of_tests (g :: rest) = g.2.length + get_number_of_tests rest := by
  show (g :: rest).foldl (fun acc g => acc + g.2.length) 0 = g.2.length + get_number_of_tests rest
  rw [List.foldl_cons, get_number_of_tests_foldl]
  omega

theorem runGroupList_succ_le (cb : Sink) (gs : Tests) (idx succ : Nat)
    (st : OutSt) (idx' succ' : Nat) (st' : OutSt)
    (h : runGroupList cb gs idx succ st = Except.ok (idx', succ', st')) :
    succ' ≤ succ + get_number_of_tests gs := by
  induction gs generalizing idx succ st with
  | nil =>
    simp only [runGroupList, Except.ok.injEq, Prod.mk.injEq] at h
    simp [get_number_of_tests]
    omega
  | cons p gs ih =>
    obtain ⟨group, l⟩ := p
    simp only [runGroupList] at h
    cases hr : runTestList cb l idx succ
        (setRdbuf cb (coutWrite ("Group: \x27" ++ group ++ "\x27\n")
          (setRdbuf Sink.log (coutWrite ("Group: \x27" ++ group ++ "\x27\n") st)))) with
    | error e => rw [hr] at h; cases h
    | ok v =>
      obtain ⟨idx1, succ1, st1⟩ := v
      rw [hr] at h
      have h1 := runTestList_succ_le _ _ _ _ _ _ _ _ hr
      have h2 := ih _ _ _ h
      rw [get_number_of_tests_cons]
      dsimp only at h1 ⊢
      omega

theorem run_tests_succ_le (tests : Tests) (succ : Nat) (st : OutSt)
    (succ' : Nat) (st' : OutSt)
    (h : run_tests tests succ st = Except.ok (succ', st')) :
    succ' ≤ succ + get_number_of_tests tests := by
  simp only [run_tests] at h
  cases hr : runGroupList st.target tests 0 succ (coutWrite "RUNNING TESTS...\n" st) with
  | error e => rw [hr] at h; cases h
  | ok v =>
    obtain ⟨idx1, succ1, st1⟩ := v
    rw [hr] at h
    simp only [Except.ok.injEq, Prod.mk.injEq] at h
    have := runGroupList_succ_le _ _ _ _ _ _ _ _ hr
    omega

/-! ## Console chunks that can never be mistaken for a summary line

Every chunk the program prints to the console outside of `print_summary`
starts with something other than the characters `"\tP"`, while the
summary line always starts with them.  This is how "no post-run summary
was printed" is made precise for aborted runs. -/

/-- `true` iff the chunk does NOT begin with the two characters that every
post-run summary line begins with. -/
def safeChunk (s : String) : Bool :=
  match s.data with
  | '\t' :: 'P' :: _ => false
  | _ => true

theorem safeChunk_announceLine (idx : Nat) (name : String) :
    safeChunk (announceLine idx name) = true := rfl

theorem safeChunk_resultLine (o : TestOutcome) : safeChunk (resultLine o) = true := by
  cases o <;> rfl

theorem safeChunk_summaryLine (a b : Nat) : safeChunk (summaryLine a b) = false := rfl

theorem summaryLine_not_mem (ls : List String)
    (h : ∀ s ∈ ls, safeChunk s = true) (a b : Nat) : summaryLine a b ∉ ls := by
  intro hmem
  have := h _ hmem
  rw [safeChunk_summaryLine] at this
  cases this

/-- Safety of the console output through one group's inner loop: starting
from a console-targeted state whose console chunks are all safe, every
state the loop can end in (normally or by an escaped exception) again has
only safe console chunks. -/
theorem runTestList_console_safe (l : List (String × bTestFn)) (idx succ : Nat) (st : OutSt)
    (hst : st.target = Sink.console) (hsafe : ∀ s ∈ st.consoleOut, safeChunk s = true) :
    (∀ idx' succ' st', runTestList Sink.console l idx succ st = Except.ok (idx', succ', st') →
      ∀ s ∈ st'.consoleOut, safeChunk s = true)
  ∧ (∀ e, runTestList Sink.console l idx succ st = Except.error e →
      ∀ s ∈ e.consoleOut, safeChunk s = true) := by
  induction l generalizing idx succ st with
  | nil =>
    constructor
    · intro idx' succ' st' h
      simp only [runTestList, Except.ok.injEq, Prod.mk.injEq] at h
      rw [← h.2.2]
      exact hsafe
    · intro e h
      cases h
  | cons p l ih =>
    obtain ⟨name, t⟩ := p
    obtain ⟨tg, co, lo, rs⟩ := st
    simp only [OutSt.target] at hst
    subst hst
    simp only [OutSt.consoleOut] at hsafe
    obtain ⟨prints, o⟩ := t
    cases o with
    | ok =>
      have step : ∀ s ∈ co ++ [announceLine idx name, "passed.\n"], safeChunk s = true := by
        intro s hs
        simp only [List.mem_append, List.mem_cons, List.not_mem_nil, or_false] at hs
        rcases hs with h1 | h2 | h2
        · exact hsafe s h1
        · rw [h2]; exact safeChunk_announceLine idx name
        · rw [h2]; rfl
      constructor
      · intro idx' succ' st' h
        simp only [runTestList, runTest_console_ok] at h
        exact (ih (idx + 1) (succ + 1) _ rfl step).1 idx' succ' st' h
      · intro e h
        simp only [runTestList, runTest_console_ok] at h
        exact (ih (idx + 1) (succ + 1) _ rfl step).2 e h
    | stdExc w =>
      have step : ∀ s ∈ co ++ [announceLine idx name, "failed at \x27" ++ w ++ "\x27.\n"],
          safeChunk s = true := by
        intro s hs
        simp only [List.mem_append, List.mem_cons, List.not_mem_nil, or_false] at hs
        rcases hs with h1 | h2 | h2
        · exact hsafe s h1
        · rw [h2]; exact safeChunk_announceLine idx name
        · rw [h2]; rfl
      constructor
      · intro idx' succ' st' h
        simp only [runTestList, runTest_console_stdExc] at h
        exact (ih (idx + 1) succ _ rfl step).1 idx' succ' st' h
      · intro e h
        simp only [runTestList, runTest_console_stdExc] at h
        exact (ih (idx + 1) succ _ rfl step).2 e h
    | foreign =>
      constructor
      · intro idx' succ' st' h
        simp only [runTestList, runTest_console_foreign] at h
        cases h
      · intro e h
        simp only [runTestList, runTest_console_foreign, Except.error.injEq] at h
        rw [← h]
        intro s hs
        simp only [OutSt.consoleOut] at hs
        simp only [List.mem_append, List.mem_cons, List.not_mem_nil, or_false] at hs
        rcases hs with h1 | h2
        · exact hsafe s h1
        · rw [h2]; exact safeChunk_announceLine idx name


/-- Safety of the console output through the outer loop over groups. -/
theorem runGroupList_console_safe (gs : Tests) (idx succ : Nat) (st : OutSt)
    (hst : st.target = Sink.console) (hsafe : ∀ s ∈ st.consoleOut, safeChunk s = true) :
    (∀ idx' succ' st', runGroupList Sink.console gs idx succ st = Except.ok (idx', succ', st') →
      ∀ s ∈ st'.consoleOut, safeChunk s = true)
  ∧ (∀ e, runGroupList Sink.console gs idx succ st = Except.error e →
      ∀ s ∈ e.consoleOut, safeChunk s = true) := by
  induction gs generalizing idx succ st with
  | nil =>
    constructor
    · intro idx' succ' st' h
      simp only [runGroupList, Except.ok.injEq, Prod.mk.injEq] at h
      rw [← h.2.2]
      exact hsafe
    · intro e h
      cases h
  | cons p gs ih =>
    obtain ⟨group, l⟩ := p
    obtain ⟨tg, co, lo, rs⟩ := st
    simp only [OutSt.target] at hst
    subst hst
    simp only [OutSt.consoleOut] at hsafe
    have hstep : ∀ s ∈ co ++ ["Group: \x27" ++ group ++ "\x27\n"], safeChunk s = true := by
      intro s hs
      simp only [List.mem_append, List.mem_cons, List.not_mem_nil, or_false] at hs
      rcases hs with h1 | h2
      · exact hsafe s h1
      · rw [h2]; rfl
    have hrtl := runTestList_console_safe l idx succ
      (OutSt.mk Sink.console (co ++ ["Group: \x27" ++ group ++ "\x27\n"])
        (lo ++ ["Group: \x27" ++ group ++ "\x27\n"]) (rs + 2)) rfl hstep
    constructor
    · intro idx' succ' st' h
      simp only [runGroupList, coutWrite_console_mk, coutWrite_log_mk, setRdbuf_mk] at h
      cases hr : runTestList Sink.console l idx succ
          (OutSt.mk Sink.console (co ++ ["Group: \x27" ++ group ++ "\x27\n"])
            (lo ++ ["Group: \x27" ++ group ++ "\x27\n"]) (rs + 2)) with
      | error e => rw [hr] at h; cases h
      | ok v =>
        obtain ⟨idx1, succ1, st1⟩ := v
        rw [hr] at h
        have ht1 : st1.target = Sink.console :=
          runTestList_ok_target _ _ _ _ _ _ _ _ rfl hr
        exact (ih idx1 succ1 st1 ht1 (hrtl.1 _ _ _ hr)).1 idx' succ' st' h
    · intro e h
      simp only [runGroupList, coutWrite_console_mk, coutWrite_log_mk, setRdbuf_mk] at h
      cases hr : runTestList Sink.console l idx succ
          (OutSt.mk Sink.console (co ++ ["Group: \x27" ++ group ++ "\x27\n"])
            (lo ++ ["Group: \x27" ++ group ++ "\x27\n"]) (rs + 2)) with
      | error e1 =>
        rw [hr] at h
        cases h
        exact hrtl.2 _ hr
      | ok v =>
        obtain ⟨idx1, succ1, st1⟩ := v
        rw [hr] at h
        have ht1 : st1.target = Sink.console :=
          runTestList_ok_target _ _ _ _ _ _ _ _ rfl hr
        exact (ih idx1 succ1 st1 ht1 (hrtl.1 _ _ _ hr)).2 e h

/-- If one of the tests in a group raises an unrecognized condition, the
inner loop over that group escapes with an exception. -/
theorem runTestList_abort (l : List (String × bTestFn)) (idx succ : Nat) (st : OutSt)
    (name : String) (t : bTestFn) (hst : st.target = Sink.console)
    (hmem : (name, t) ∈ l) (hout : t.outcome = TestOutcome.foreign) :
    ∃ e, runTestList Sink.console l idx succ st = Except.error e := by
  induction l generalizing idx succ st with
  | nil => cases hmem
  | cons p l ih =>
    obtain ⟨n0, t0⟩ := p
    obtain ⟨tg, co, lo, rs⟩ := st
    simp only [OutSt.target] at hst
    subst hst
    obtain ⟨pr0, o0⟩ := t0
    rcases List.mem_cons.mp hmem with hhead | htail
    · have hto : t = bTestFn.mk pr0 o0 := ((Prod.mk.injEq _ _ _ _).mp hhead).2
      have ho0 : o0 = TestOutcome.foreign := by
        rw [hto] at hout
        exact hout
      subst ho0
      simp only [runTestList, runTest_console_foreign]
      exact ⟨_, rfl⟩
    · cases o0 with
      | ok =>
        simp only [runTestList, runTest_console_ok]
        exact ih (idx + 1) (succ + 1) _ rfl htail
      | stdExc w =>
        simp only [runTestList, runTest_console_stdExc]
        exact ih (idx + 1) succ _ rfl htail
      | foreign =>
        simp only [runTestList, runTest_console_foreign]
        exact ⟨_, rfl⟩

/-- If any registered test anywhere raises an unrecognized condition, the
whole walk over the groups escapes with an exception. -/
theorem runGroupList_abort (gs : Tests) (idx succ : Nat) (st : OutSt)
    (group name : String) (gm : GroupMap) (t : bTestFn) (hst : st.target = Sink.console)
    (hg : (group, gm) ∈ gs) (hm : (name, t) ∈ gm) (hout : t.outcome = TestOutcome.foreign) :
    ∃ e, runGroupList Sink.console gs idx succ st = Except.error e := by
  induction gs generalizing idx succ st with
  | nil => cases hg
  | cons p gs ih =>
    obtain ⟨g0, l0⟩ := p
    obtain ⟨tg, co, lo, rs⟩ := st
    simp only [OutSt.target] at hst
    subst hst
    simp only [runGroupList, coutWrite_console_mk, coutWrite_log_mk, setRdbuf_mk]
    rcases List.mem_cons.mp hg with hhead | htail
    · have hgm : gm = l0 := ((Prod.mk.injEq _ _ _ _).mp hhead).2
      rw [hgm] at hm
      obtain ⟨e, he⟩ := runTestList_abort l0 idx succ
        (OutSt.mk Sink.console (co ++ ["Group: \x27" ++ g0 ++ "\x27\n"])
          (lo ++ ["Group: \x27" ++ g0 ++ "\x27\n"]) (rs + 2)) name t rfl hm hout
      rw [he]
      exact ⟨e, rfl⟩
    · cases hr : runTestList Sink.console l0 idx succ
          (OutSt.mk Sink.console (co ++ ["Group: \x27" ++ g0 ++ "\x27\n"])
            (lo ++ ["Group: \x27" ++ g0 ++ "\x27\n"]) (rs + 2)) with
      | error e => exact ⟨e, rfl⟩
      | ok v =>
        obtain ⟨idx1, succ1, st1⟩ := v
        have ht1 : st1.target = Sink.console :=
          runTestList_ok_target _ _ _ _ _ _ _ _ rfl hr
        exact ih idx1 succ1 st1 ht1 htail

/-! ## Registry lemmas -/

theorem assocGet_insert_self {a : Type} (k : String) (v : a) (m : List (String × a)) :
    assocGet k (insert_or_assign k v m) = some v := by
  induction m with
  | nil => simp [insert_or_assign, assocGet]
  | cons p rest ih =>
    obtain ⟨k1, v1⟩ := p
    by_cases h : k1 = k
    · simp [insert_or_assign, assocGet, h]
    · simp [insert_or_assign, assocGet, h, ih]

theorem assocGet_insert_ne {a : Type} (k k1 : String) (v : a) (m : List (String × a))
    (h : k1 ≠ k) : assocGet k1 (insert_or_assign k v m) = assocGet k1 m := by
  induction m with
  | nil => simp [insert_or_assign, assocGet, Ne.symm h]
  | cons p rest ih =>
    obtain ⟨k2, v2⟩ := p
    by_cases h2 : k2 = k
    · subst h2
      simp [insert_or_assign, assocGet, Ne.symm h]
    · simp [insert_or_assign, assocGet, h2, ih]

theorem insert_length_of_mem {a : Type} (k : String) (v : a) (m : List (String × a))
    (h : (assocGet k m).isSome) : (insert_or_assign k v m).length = m.length := by
  induction m with
  | nil => simp [assocGet] at h
  | cons p rest ih =>
    obtain ⟨k1, v1⟩ := p
    by_cases h1 : k1 = k
    · simp [insert_or_assign, h1]
    · simp only [assocGet, if_neg h1] at h
      simp [insert_or_assign, h1, ih h]

theorem assocGet_mapAt_self {a : Type} (k : String) (f : a → a) (m : List (String × a)) :
    assocGet k (mapAt k f m) = (assocGet k m).map f := by
  induction m with
  | nil => simp [mapAt, assocGet]
  | cons p rest ih =>
    obtain ⟨k1, v1⟩ := p
    by_cases h : k1 = k
    · simp [mapAt, assocGet, h]
    · simp [mapAt, assocGet, h, ih]

theorem assocGet_mapAt_ne {a : Type} (k k1 : String) (f : a → a) (m : List (String × a))
    (h : k1 ≠ k) : assocGet k1 (mapAt k f m) = assocGet k1 m := by
  induction m with
  | nil => simp [mapAt]
  | cons p rest ih =>
    obtain ⟨k2, v2⟩ := p
    by_cases h2 : k2 = k
    · subst h2
      simp [mapAt, assocGet, Ne.symm h, ih]
    · simp [mapAt, assocGet, h2, ih]

/-- Registering under `(group, name)` makes the registered function the one
looked up at that exact pair. -/
theorem lookupTest_ctor_self (tests : Tests) (group name : String) (f : bTestFn) :
    lookupTest group name (UnitTest.ctor name f group tests) = some f := by
  unfold UnitTest.ctor lookupTest
  cases hx : assocGet group tests with
  | some m =>
    simp only [hx, Option.isSome_some, if_pos]
    rw [assocGet_mapAt_self, hx]
    simp [assocGet_insert_self]
  | none =>
    simp only [hx, Option.isSome_none, Bool.false_eq_true, if_false]
    rw [assocGet_mapAt_self, assocGet_insert_self]
    simp [assocGet, assocGet_insert_self]

/-- Registering into one group leaves every other group's entries alone. -/
theorem lookupTest_ctor_ne_group (tests : Tests) (group g1 name n1 : String) (f : bTestFn)
    (h : g1 ≠ group) :
    lookupTest g1 n1 (UnitTest.ctor name f group tests) = lookupTest g1 n1 tests := by
  unfold UnitTest.ctor lookupTest
  cases hx : assocGet group tests with
  | some m =>
    simp only [hx, Option.isSome_some, if_pos]
    rw [assocGet_mapAt_ne _ _ _ _ h]
  | none =>
    simp only [hx, Option.isSome_none, Bool.false_eq_true, if_false]
    rw [assocGet_mapAt_ne _ _ _ _ h, assocGet_insert_ne _ _ _ _ h]

/-- Re-registering a `(group, name)` pair that is already present does not
change that group's entry count. -/
theorem groupEntryCount_ctor_present (tests : Tests) (group name : String) (f f0 : bTestFn)
    (h : lookupTest group name tests = some f0) :
    groupEntryCount group (UnitTest.ctor name f group tests) = groupEntryCount group tests := by
  unfold lookupTest at h
  cases hx : assocGet group tests with
  | none => rw [hx] at h; cases h
  | some m =>
    rw [hx] at h
    have h1 : assocGet name m = some f0 := h
    have hsome : (assocGet name m).isSome := by rw [h1]; rfl
    unfold UnitTest.ctor groupEntryCount
    simp [hx, assocGet_mapAt_self, insert_length_of_mem name f m hsome]

/-! ## Lemmas about the location descriptor of `bTEST_ASSERT` -/

theorem findLastOf_eq_none (c : Char) (l : List Char) :
    findLastOf c l = none ↔ c ∉ l := by
  induction l with
  | nil => simp [findLastOf]
  | cons a rest ih =>
    cases hr : findLastOf c rest with
    | some i =>
      have hmem : c ∈ rest := by
        by_contra hn
        rw [ih.mpr hn] at hr
        cases hr
      simp only [findLastOf, hr, List.mem_cons]
      constructor
      · intro h; cases h
      · intro h; exact (h (Or.inr hmem)).elim
    | none =>
      have hnotm : c ∉ rest := ih.mp hr
      simp only [findLastOf, hr, List.mem_cons]
      by_cases ha : a = c
      · simp only [if_pos ha]
        constructor
        · intro h; cases h
        · intro h; exact (h (Or.inl ha.symm)).elim
      · simp only [if_neg ha]
        constructor
        · intro _ hor
          rcases hor with h1 | h2
          · exact ha h1.symm
          · exact hnotm h2
        · intro _; trivial

theorem findLastOf_spec (c : Char) (l : List Char) (i : Nat)
    (h : findLastOf c l = some i) : ∃ t, l.drop i = c :: t ∧ c ∉ t := by
  induction l generalizing i with
  | nil => cases h
  | cons a rest ih =>
    simp only [findLastOf] at h
    cases hr : findLastOf c rest with
    | some j =>
      rw [hr] at h
      simp only [Option.some.injEq] at h
      subst h
      obtain ⟨t, ht, hnt⟩ := ih j hr
      exact ⟨t, by simpa using ht, hnt⟩
    | none =>
      rw [hr] at h
      by_cases ha : a = c
      · rw [if_pos ha] at h
        simp only [Option.some.injEq] at h
        subst h
        exact ⟨rest, by rw [ha]; rfl, (findLastOf_eq_none c rest).mp hr⟩
      · rw [if_neg ha] at h
        cases h

/-- Evaluation of `print_info` from a console-targeted state. -/
theorem print_info_mk (tests : Tests) (co lo : List String) (rs : Nat) :
    print_info tests (OutSt.mk Sink.console co lo rs) =
      OutSt.mk Sink.console
        (co ++ [lineSeparator,
          "INFO:\tIf all tests pass (or no tests fail), the program will return success.\n\t\tOtherwise, it will return failure.\n",
          "INFO:\tFound " ++ toString (get_number_of_tests tests) ++ " test" ++
            (if get_number_of_tests tests = 1 then "" else "s") ++ " in " ++
            toString tests.length ++ " group" ++ (if tests.length = 1 then ".\n" else "s.\n"),
          lineSeparator]) lo rs := by
  simp only [print_info, coutWrite_console_mk, List.append_assoc]
  simp

/-! ## The claims -/

/-- Claim C1: the entry point\'s exit status is the pass code (0) if and
only if the number of passed tests equals the total number of registered
tests (including the vacuous case of zero registered tests), and is
otherwise the fail code (-1). -/
theorem C1_exit_status (tests : Tests) (code : Int) (succ : Nat) (st : OutSt)
    (h : main tests = ProgResult.exits code succ st) :
    (code = 0 ↔ succ = get_number_of_tests tests) ∧
    (succ ≠ get_number_of_tests tests → code = -1) := by
  by_cases hz : tests.length = 0
  · obtain rfl : tests = [] := List.length_eq_zero.mp hz
    have h1 : ProgResult.exits 0 0 (print_info [] initialOutSt)
        = ProgResult.exits code succ st := h
    injection h1 with hc hs _
    constructor
    · rw [← hc, ← hs]
      simp [get_number_of_tests]
    · intro hne
      rw [← hs] at hne
      exact (hne rfl).elim
  · simp only [main, if_neg hz] at h
    cases hr : run_tests tests 0 (print_info tests initialOutSt) with
    | error e => rw [hr] at h; cases h
    | ok v =>
      obtain ⟨s1, st1⟩ := v
      rw [hr] at h
      injection h with hc hs _
      by_cases he : s1 = get_number_of_tests tests
      · rw [if_pos he] at hc
        rw [← hs]
        exact ⟨⟨fun _ => he, fun _ => hc.symm⟩, fun hne => absurd he hne⟩
      · rw [if_neg he] at hc
        rw [← hs]
        refine ⟨⟨fun hc0 => ?_, fun he1 => absurd he1 he⟩, fun _ => hc.symm⟩
        rw [← hc] at hc0
        exact absurd hc0 (by decide)

/-- Witness for C1 at the empty registry. -/
theorem C1_exit_status_witness :
    ((0 : Int) = 0 ↔ (0 : Nat) = get_number_of_tests ([] : Tests)) ∧
    ((0 : Nat) ≠ get_number_of_tests ([] : Tests) → (0 : Int) = -1) :=
  C1_exit_status [] 0 0 (print_info [] initialOutSt) rfl

/-- Claim C7: the passed counter starts at zero, grows by exactly one per
successful test and never otherwise, and after any completed run satisfies
`passed ≤ total`. -/
theorem C7_passed_monotone :
    (∀ (cb : Sink) (idx : Nat) (name : String) (t : bTestFn) (succ : Nat) (st : OutSt)
        (succ1 : Nat) (st1 : OutSt),
        runTest cb idx name t succ st = Except.ok (succ1, st1) →
        succ1 = succ + (if t.outcome = TestOutcome.ok then 1 else 0))
  ∧ (∀ (tests : Tests) (code : Int) (succ : Nat) (st : OutSt),
        main tests = ProgResult.exits code succ st →
        succ ≤ get_number_of_tests tests) := by
  constructor
  · exact fun cb idx name t succ st succ1 st1 h =>
      runTest_ok_succ cb idx name t succ st succ1 st1 h
  · intro tests code succ st h
    by_cases hz : tests.length = 0
    · obtain rfl : tests = [] := List.length_eq_zero.mp hz
      have h1 : ProgResult.exits 0 0 (print_info [] initialOutSt)
          = ProgResult.exits code succ st := h
      injection h1 with _ hs _
      rw [← hs]
      exact Nat.zero_le _
    · simp only [main, if_neg hz] at h
      cases hr : run_tests tests 0 (print_info tests initialOutSt) with
      | error e => rw [hr] at h; cases h
      | ok v =>
        obtain ⟨s1, st1⟩ := v
        rw [hr] at h
        injection h with _ hs _
        have hle := run_tests_succ_le tests 0 _ s1 st1 hr
        omega

/-- Witness for C7. -/
theorem C7_passed_monotone_witness :
    ((1 : Nat) = 0 + (if (bTestFn.mk [] TestOutcome.ok).outcome = TestOutcome.ok then 1 else 0))
  ∧ ((0 : Nat) ≤ get_number_of_tests ([] : Tests)) :=
  ⟨C7_passed_monotone.1 Sink.console 0 "t" (bTestFn.mk [] TestOutcome.ok) 0 initialOutSt 1 _ rfl,
   C7_passed_monotone.2 [] 0 0 (print_info [] initialOutSt) rfl⟩

/-- Claim C3: registering a `(group, name)` pair that already exists
replaces the previously stored action for that exact pair -- only the
action from the last registration is kept (and hence is the one the
runner executes, since the runner invokes the stored entry) -- and the
registry entry count for that group does not increase. -/
theorem C3_reregistration_replaces (tests : Tests) (group name : String) (f1 f2 : bTestFn) :
    lookupTest group name (UnitTest.ctor name f1 group tests) = some f1
  ∧ lookupTest group name (UnitTest.ctor name f2 group (UnitTest.ctor name f1 group tests))
      = some f2
  ∧ groupEntryCount group (UnitTest.ctor name f2 group (UnitTest.ctor name f1 group tests))
      = groupEntryCount group (UnitTest.ctor name f1 group tests) :=
  ⟨lookupTest_ctor_self tests group name f1,
   lookupTest_ctor_self (UnitTest.ctor name f1 group tests) group name f2,
   groupEntryCount_ctor_present (UnitTest.ctor name f1 group tests) group name f2 f1
     (lookupTest_ctor_self tests group name f1)⟩

/-- Claim C8: the same test name registered under two distinct groups is
retained under both groups without conflict, and the runner executes both
independently (in the concrete run below, two same-named tests in two
groups yield two passes out of two tests). -/
theorem C8_same_name_distinct_groups :
    (∀ (tests : Tests) (g1 g2 n : String) (f1 f2 : bTestFn), g1 ≠ g2 →
      lookupTest g1 n (UnitTest.ctor n f2 g2 (UnitTest.ctor n f1 g1 tests)) = some f1 ∧
      lookupTest g2 n (UnitTest.ctor n f2 g2 (UnitTest.ctor n f1 g1 tests)) = some f2)
  ∧ (∃ st, main (UnitTest.ctor "t" (bTestFn.mk [] TestOutcome.ok) "g2"
        (UnitTest.ctor "t" (bTestFn.mk [] TestOutcome.ok) "g1" []))
      = ProgResult.exits 0 2 st) := by
  constructor
  · intro tests g1 g2 n f1 f2 hne
    constructor
    · rw [lookupTest_ctor_ne_group (UnitTest.ctor n f1 g1 tests) g2 g1 n n f2 hne]
      exact lookupTest_ctor_self tests g1 n f1
    · exact lookupTest_ctor_self (UnitTest.ctor n f1 g1 tests) g2 n f2
  · exact ⟨_, rfl⟩

/-- Witness for C8 at two concrete distinct groups. -/
theorem C8_same_name_distinct_groups_witness :
    lookupTest "g1" "t" (UnitTest.ctor "t" (bTestFn.mk [] TestOutcome.ok) "g2"
        (UnitTest.ctor "t" (bTestFn.mk [] TestOutcome.ok) "g1" []))
      = some (bTestFn.mk [] TestOutcome.ok)
  ∧ lookupTest "g2" "t" (UnitTest.ctor "t" (bTestFn.mk [] TestOutcome.ok) "g2"
        (UnitTest.ctor "t" (bTestFn.mk [] TestOutcome.ok) "g1" []))
      = some (bTestFn.mk [] TestOutcome.ok) :=
  C8_same_name_distinct_groups.1 [] "g1" "g2" "t"
    (bTestFn.mk [] TestOutcome.ok) (bTestFn.mk [] TestOutcome.ok) (by decide)

/-- Claim C2: a registered test whose action raises the recognized failure
signal (the assertion exception carrying the location descriptor) is
caught at that test invocation boundary: the invocation completes
normally for the runner, the failed-at-location status line is emitted on
the primary channel, the passed counter is not incremented, and the loop
continues with the next test. -/
theorem C2_assert_failure_contained (rest : List (String × bTestFn)) (idx succ : Nat)
    (name file : String) (line : Nat) (t : bTestFn) (st : OutSt)
    (hout : t.outcome = TestOutcome.stdExc (bTEST_ASSERT_errorString file line))
    (hst : st.target = Sink.console) :
    ∃ st1, runTest Sink.console idx name t succ st = Except.ok (succ, st1)
      ∧ runTestList Sink.console ((name, t) :: rest) idx succ st
          = runTestList Sink.console rest (idx + 1) succ st1
      ∧ st1.consoleOut = st.consoleOut ++ [announceLine idx name,
          "failed at \x27" ++ bTEST_ASSERT_errorString file line ++ "\x27.\n"] := by
  obtain ⟨tg, co, lo, rs⟩ := st
  simp only [OutSt.target] at hst
  subst hst
  obtain ⟨prints, o⟩ := t
  have ho : o = TestOutcome.stdExc (bTEST_ASSERT_errorString file line) := hout
  subst ho
  refine ⟨_, runTest_console_stdExc idx name _ prints succ co lo rs, ?_, rfl⟩
  simp only [runTestList, runTest_console_stdExc]

/-- Witness for C2: a single test raising the assertion signal. -/
theorem C2_assert_failure_contained_witness :
    ∃ st1, runTest Sink.console 0 "t"
        (bTestFn.mk [] (TestOutcome.stdExc (bTEST_ASSERT_errorString "f.cpp" 3))) 0 initialOutSt
      = Except.ok (0, st1)
      ∧ runTestList Sink.console
          [("t", bTestFn.mk [] (TestOutcome.stdExc (bTEST_ASSERT_errorString "f.cpp" 3)))]
          0 0 initialOutSt
        = runTestList Sink.console [] (0 + 1) 0 st1
      ∧ st1.consoleOut = initialOutSt.consoleOut ++ [announceLine 0 "t",
          "failed at \x27" ++ bTEST_ASSERT_errorString "f.cpp" 3 ++ "\x27.\n"] :=
  C2_assert_failure_contained [] 0 0 "t" "f.cpp" 3
    (bTestFn.mk [] (TestOutcome.stdExc (bTEST_ASSERT_errorString "f.cpp" 3)))
    initialOutSt rfl rfl

/-- Claim C10: the per-test boundary catches every exception derived from
`std::exception`, not only the assertion signal: any such exception with
an arbitrary `what()` string is classified as an ordinary test failure
reported at that string, the passed counter is not incremented, and the
run continues with the next test. -/
theorem C10_any_std_exception_caught (rest : List (String × bTestFn)) (idx succ : Nat)
    (name w : String) (t : bTestFn) (st : OutSt)
    (hout : t.outcome = TestOutcome.stdExc w)
    (hst : st.target = Sink.console) :
    ∃ st1, runTest Sink.console idx name t succ st = Except.ok (succ, st1)
      ∧ runTestList Sink.console ((name, t) :: rest) idx succ st
          = runTestList Sink.console rest (idx + 1) succ st1
      ∧ st1.consoleOut = st.consoleOut ++ [announceLine idx name,
          "failed at \x27" ++ w ++ "\x27.\n"] := by
  obtain ⟨tg, co, lo, rs⟩ := st
  simp only [OutSt.target] at hst
  subst hst
  obtain ⟨prints, o⟩ := t
  have ho : o = TestOutcome.stdExc w := hout
  subst ho
  refine ⟨_, runTest_console_stdExc idx name w prints succ co lo rs, ?_, rfl⟩
  simp only [runTestList, runTest_console_stdExc]

/-- Witness for C10: a runtime-error-style exception with a plain message. -/
theorem C10_any_std_exception_caught_witness :
    ∃ st1, runTest Sink.console 0 "t"
        (bTestFn.mk [] (TestOutcome.stdExc "boom")) 0 initialOutSt
      = Except.ok (0, st1)
      ∧ runTestList Sink.console [("t", bTestFn.mk [] (TestOutcome.stdExc "boom"))]
          0 0 initialOutSt
        = runTestList Sink.console [] (0 + 1) 0 st1
      ∧ st1.consoleOut = initialOutSt.consoleOut ++ [announceLine 0 "t",
          "failed at \x27boom\x27.\n"] :=
  C10_any_std_exception_caught [] 0 0 "t" "boom"
    (bTestFn.mk [] (TestOutcome.stdExc "boom")) initialOutSt rfl rfl

/-- Claim C6: for every test invocation that exits through the success or
the failure path, the redirection target that was active before the test
is restored, and (when that target is the console, as in the real
program) the runner announcement and result status lines are written to
the primary channel. -/
theorem C6_capture_restored (cb : Sink) (idx succ : Nat) (name : String) (t : bTestFn)
    (st : OutSt) (hfor : t.outcome ≠ TestOutcome.foreign) (hst : st.target = cb) :
    ∃ succ1 st1, runTest cb idx name t succ st = Except.ok (succ1, st1)
      ∧ st1.target = cb
      ∧ (cb = Sink.console →
          st1.consoleOut = st.consoleOut ++ [announceLine idx name, resultLine t.outcome]) := by
  have hok : ∃ succ1 st1, runTest cb idx name t succ st = Except.ok (succ1, st1) := by
    cases ht : t.outcome with
    | foreign => exact absurd ht hfor
    | ok => simp [runTest, ht]
    | stdExc w => simp [runTest, ht]
  obtain ⟨succ1, st1, heq⟩ := hok
  refine ⟨succ1, st1, heq, runTest_ok_target cb idx name t succ st succ1 st1 heq, ?_⟩
  intro hcb
  subst hcb
  obtain ⟨tg, co, lo, rs⟩ := st
  simp only [OutSt.target] at hst
  subst hst
  obtain ⟨prints, o⟩ := t
  cases o with
  | foreign => exact absurd rfl hfor
  | ok =>
    rw [runTest_console_ok] at heq
    injection heq with h1
    injection h1 with h2 h3
    rw [← h3]
    simp [resultLine]
  | stdExc w =>
    rw [runTest_console_stdExc] at heq
    injection heq with h1
    injection h1 with h2 h3
    rw [← h3]
    simp [resultLine]

/-- Witness for C6 at a concrete passing test on the console. -/
theorem C6_capture_restored_witness :
    ∃ succ1 st1, runTest Sink.console 0 "t" (bTestFn.mk [] TestOutcome.ok) 0 initialOutSt
        = Except.ok (succ1, st1)
      ∧ st1.target = Sink.console
      ∧ (Sink.console = Sink.console →
          st1.consoleOut = initialOutSt.consoleOut ++
            [announceLine 0 "t", resultLine (bTestFn.mk [] TestOutcome.ok).outcome]) :=
  C6_capture_restored Sink.console 0 0 "t" (bTestFn.mk [] TestOutcome.ok) initialOutSt
    (by decide) rfl

/-- Counterexample to claim C4 as stated: at source file `dir/test.cpp`,
line 7, the failure signal payload is `/test.cpp:7` -- the substring
starting AT the last path separator -- not the portion strictly after it
(`test.cpp:7`). -/
theorem C4_location_descriptor_counterexample :
    bTEST_ASSERT false "dir/test.cpp" 7 = some "/test.cpp:7"
  ∧ ("/test.cpp:7" : String) ≠ "test.cpp:7" := by
  constructor
  · rfl
  · decide

/-- Claim C4 (amended): on a false condition, the assertion primitive
raises a failure signal whose payload is `"<file>:<line>"` trimmed to the
suffix that starts at (and includes) the last path separator of the file
path; when no separator occurs, the payload is the full string. -/
theorem C4_location_descriptor (file : String) (line : Nat) :
    ∃ w, bTEST_ASSERT false file line = some w ∧
      ((bFILE_PATH_SEPARATOR ∉ (file ++ ":" ++ toString line).data ∧
          w = file ++ ":" ++ toString line)
       ∨ (∃ pre t, (file ++ ":" ++ toString line).data = pre ++ w.data
            ∧ w.data = bFILE_PATH_SEPARATOR :: t
            ∧ bFILE_PATH_SEPARATOR ∉ t)) := by
  unfold bTEST_ASSERT bTEST_ASSERT_errorString
  simp only [Bool.false_eq_true, if_false]
  cases hf : findLastOf bFILE_PATH_SEPARATOR (file ++ ":" ++ toString line).data with
  | none =>
    refine ⟨file ++ ":" ++ toString line, rfl, Or.inl ⟨(findLastOf_eq_none _ _).mp hf, rfl⟩⟩
  | some i =>
    obtain ⟨t, ht, hnt⟩ := findLastOf_spec _ _ _ hf
    refine ⟨String.mk ((file ++ ":" ++ toString line).data.drop i), rfl,
      Or.inr ⟨(file ++ ":" ++ toString line).data.take i, t, ?_, ?_, hnt⟩⟩
    · show (file ++ ":" ++ toString line).data
        = (file ++ ":" ++ toString line).data.take i ++ (file ++ ":" ++ toString line).data.drop i
      rw [List.take_append_drop]
    · show (file ++ ":" ++ toString line).data.drop i = bFILE_PATH_SEPARATOR :: t
      exact ht

/-- Counterexample to claim C5 as stated: with zero registered tests the
entry point returns the pass code directly after the pre-run info, and no
post-run summary line (`print_summary` output) is emitted on either
channel. -/
theorem C5_zero_tests_counterexample :
    main [] = ProgResult.exits 0 0 (print_info [] initialOutSt)
  ∧ summaryLine 0 0 ∉ (print_info [] initialOutSt).consoleOut
  ∧ summaryLine 0 0 ∉ (print_info [] initialOutSt).logOut := by
  refine ⟨rfl, by decide, by decide⟩

/-- Claim C5 (amended): when zero tests are registered, the runner never
invokes the capture facility, the exit status is the pass code with a
passed count of zero, no post-run summary is printed (the entry point
returns before the reporter runs), and the only count report is the
pre-run info line `Found 0 tests in 0 groups`. -/
theorem C5_zero_tests_behavior :
    ∃ st, main [] = ProgResult.exits 0 0 st
      ∧ st.rdbufSets = 0
      ∧ (∀ a b : Nat, summaryLine a b ∉ st.consoleOut)
      ∧ "INFO:\tFound 0 tests in 0 groups.\n" ∈ st.consoleOut := by
  refine ⟨print_info [] initialOutSt, rfl, rfl,
    fun a b => summaryLine_not_mem _ (by decide) a b, by decide⟩

/-- Claim C9: if a registered test action raises an error condition that
is not recognized by the per-test catch clause (not derived from
`std::exception`), it is not caught at the per-test boundary: the whole
run terminates by the escaped exception and no post-run summary line is
ever printed to the console. -/
theorem C9_unrecognized_error_terminates (tests : Tests) (group name : String)
    (gm : GroupMap) (t : bTestFn)
    (hg : (group, gm) ∈ tests) (hm : (name, t) ∈ gm)
    (hout : t.outcome = TestOutcome.foreign) :
    ∃ st, main tests = ProgResult.terminated st ∧
      ∀ a b : Nat, summaryLine a b ∉ st.consoleOut := by
  have hne : tests.length ≠ 0 := by
    cases tests with
    | nil => cases hg
    | cons h rest => simp
  have hinfo : print_info tests initialOutSt =
      OutSt.mk Sink.console
        ([lineSeparator,
          "INFO:\tIf all tests pass (or no tests fail), the program will return success.\n\t\tOtherwise, it will return failure.\n",
          "INFO:\tFound " ++ toString (get_number_of_tests tests) ++ " test" ++
            (if get_number_of_tests tests = 1 then "" else "s") ++ " in " ++
            toString tests.length ++ " group" ++ (if tests.length = 1 then ".\n" else "s.\n"),
          lineSeparator]) [] 0 := by
    have h0 : initialOutSt = OutSt.mk Sink.console [] [] 0 := rfl
    rw [h0, print_info_mk]
    simp
  have hsafe : ∀ s ∈ ([lineSeparator,
          "INFO:\tIf all tests pass (or no tests fail), the program will return success.\n\t\tOtherwise, it will return failure.\n",
          "INFO:\tFound " ++ toString (get_number_of_tests tests) ++ " test" ++
            (if get_number_of_tests tests = 1 then "" else "s") ++ " in " ++
            toString tests.length ++ " group" ++ (if tests.length = 1 then ".\n" else "s.\n"),
          lineSeparator] ++ ["RUNNING TESTS...\n"]), safeChunk s = true := by
    intro x hx
    simp only [List.mem_append, List.mem_cons, List.not_mem_nil, or_false] at hx
    rcases hx with (h1 | h1 | h1 | h1) | h1 <;> rw [h1] <;> rfl
  obtain ⟨e, he⟩ := runGroupList_abort tests 0 0
    (OutSt.mk Sink.console
      ([lineSeparator,
        "INFO:\tIf all tests pass (or no tests fail), the program will return success.\n\t\tOtherwise, it will return failure.\n",
        "INFO:\tFound " ++ toString (get_number_of_tests tests) ++ " test" ++
          (if get_number_of_tests tests = 1 then "" else "s") ++ " in " ++
          toString tests.length ++ " group" ++ (if tests.length = 1 then ".\n" else "s.\n"),
        lineSeparator] ++ ["RUNNING TESTS...\n"]) [] 0)
    group name gm t rfl hg hm hout
  refine ⟨e, ?_, ?_⟩
  · simp only [main, if_neg hne, hinfo, run_tests, OutSt.target, coutWrite_console_mk]
    rw [he]
  · intro a b
    exact summaryLine_not_mem _
      ((runGroupList_console_safe tests 0 0 _ rfl hsafe).2 e he) a b

/-- Witness for C9: one registered test raising a non-`std::exception`
condition. -/
theorem C9_unrecognized_error_terminates_witness :
    ∃ st, main [("g", [("t", bTestFn.mk [] TestOutcome.foreign)])]
        = ProgResult.terminated st ∧
      ∀ a b : Nat, summaryLine a b ∉ st.consoleOut :=
  C9_unrecognized_error_terminates
    [("g", [("t", bTestFn.mk [] TestOutcome.foreign)])] "g" "t"
    [("t", bTestFn.mk [] TestOutcome.foreign)] (bTestFn.mk [] TestOutcome.foreign)
    (by simp) (by simp) rfl

end BUnitTests
